import Mathlib

/-!
Verification of the leetcode-tracker client core against its design spec.

The embedding below is a shallow model of the single source component
(`LeetCodeTracker`): the problem record type, the raw remote record type,
difficulty inference, the fetch-and-merge reconciliation, the versioned
local store, the filter/sort view pipeline, the `update` mutation, and the
pagination state machine.  JavaScript numbers occurring as remote ratings
are modelled as rationals; `Math.round` is `fun x => ⌊x + 1/2⌋`; JS string
comparison and `includes` are modelled on the underlying character lists.
-/

namespace Tracker

/-- The persisted / in-memory problem record (source type `Problem`). -/
structure Problem where
  id : String
  title : String
  slug : String
  rating : ℤ
  contest : String
  difficulty : String
  solved : Bool
  starred : Bool
  notes : String
  tc : String
  sc : String
deriving DecidableEq, Repr

/-- A raw record of the remote dataset (source type `RawItem`).
`Rating`, `ContestID_en`, `ProblemIndex` are optional in the feed. -/
structure RawItem where
  ID : ℕ
  Title : String
  TitleSlug : String
  Rating : Option ℚ
  ContestID_en : Option String
  ProblemIndex : Option String
deriving DecidableEq, Repr

/-- Source constant `DATA_VERSION`. -/
def DATA_VERSION : ℤ := 1

/-- Source helper `inferDifficulty(idx?: string)`: `"Q1" → "Easy"`,
`"Q3"/"Q4"/"Q5" → "Hard"`, anything else (including `undefined`) → `"Medium"`. -/
def inferDifficulty (idx : Option String) : String :=
  if idx = some "Q1" then "Easy"
  else if (idx.getD "") ∈ (["Q3", "Q4", "Q5"] : List String) then "Hard"
  else "Medium"

/-- JS `Math.round` on a rational: `⌊x + 1/2⌋`. -/
def jsRound (x : ℚ) : ℤ := ⌊x + 1/2⌋

/-- JS `v || 0` on an optional number.  (`0 || 0 = 0`, so mapping a present
`0` to the default gives the same value.) -/
def jsNumOrZero (x : Option ℚ) : ℚ := x.getD 0

/-- JS `v || ""` on an optional string.  (`"" || "" = ""`, so mapping a
present empty string to the default gives the same value.) -/
def jsStrOrEmpty (x : Option String) : String := x.getD ""

/-- Lookup in the JS `Map` built by `new Map(saved.map(p => [p.id, p]))`:
on duplicate keys the last insertion wins, hence `find?` on the reversed
list. -/
def savedMapGet (saved : List Problem) (key : String) : Option Problem :=
  saved.reverse.find? (fun p => p.id == key)

/-- One merged record of `fetchAndMerge`: identity/display fields from the
raw record, user-owned fields from the matching saved record via
`old?.field || default`. -/
def mergeOne (saved : List Problem) (r : RawItem) : Problem :=
  let old := savedMapGet saved (toString r.ID)
  { id := toString r.ID
    title := r.Title
    slug := r.TitleSlug
    rating := jsRound (jsNumOrZero r.Rating)
    contest := jsStrOrEmpty r.ContestID_en
    difficulty := inferDifficulty r.ProblemIndex
    solved := (old.map Problem.solved).getD false
    starred := (old.map Problem.starred).getD false
    notes := jsStrOrEmpty (old.map Problem.notes)
    tc := jsStrOrEmpty (old.map Problem.tc)
    sc := jsStrOrEmpty (old.map Problem.sc) }

/-- The pure core of source `fetchAndMerge`: `raw.map(r => ...)` over the
previously saved list. -/
def fetchAndMerge (saved : List Problem) (raw : List RawItem) : List Problem :=
  raw.map (mergeOne saved)

/-- The possible observable contents of the `localStorage` slot under
`STORAGE_KEY`: absent, unparseable, or a parsed `{version, data}` blob. -/
inductive Cache
  | absent
  | corrupt
  | stored (version : ℤ) (data : List Problem)
deriving DecidableEq

/-- Source `persist(data)`: overwrite the slot with `{version: DATA_VERSION, data}`. -/
def persist (data : List Problem) : Cache := Cache.stored DATA_VERSION data

/-- What `loadData` decides to do with the store contents. -/
inductive LoadAction
  | useCache (data : List Problem)
  | refetch
deriving DecidableEq

/-- Source `loadData`: a parsed cache with the current version is used as
is; absence and a differing version fall through to `fetchAndMerge`; a
parse failure is caught and also falls through to `fetchAndMerge`. -/
def loadData : Cache → LoadAction
  | Cache.absent => LoadAction.refetch
  | Cache.corrupt => LoadAction.refetch
  | Cache.stored v data =>
      if v = DATA_VERSION then LoadAction.useCache data else LoadAction.refetch

/-- The filter state (source `filters`). -/
structure Filters where
  min : ℤ
  max : ℤ
  query : String
  solved : Bool
  starred : Bool
deriving DecidableEq, Repr

/-- JS `String.prototype.toLowerCase`, modelled charwise. -/
def toLowerStr (s : String) : String := String.mk (s.data.map Char.toLower)

/-- Whether the first list is a prefix of the second (Bool-valued). -/
def isPrefixL : List Char → List Char → Bool
  | [], _ => true
  | _ :: _, [] => false
  | a :: q, b :: s => a == b && isPrefixL q s

/-- Whether the first list occurs as a contiguous run inside the second. -/
def isSubL : List Char → List Char → Bool
  | q, [] => isPrefixL q []
  | q, b :: s => isPrefixL q (b :: s) || isSubL q s

/-- JS `s.includes(q)`. -/
def jsIncludes (s q : String) : Bool := isSubL q.data s.data

/-- The filter stage of the view effect: sequential `.filter` calls with
the solved/starred/query stages applied only when active. -/
def applyFilters (f : Filters) (l : List Problem) : List Problem :=
  let l1 := l.filter (fun p => decide (f.min ≤ p.rating) && decide (p.rating ≤ f.max))
  let l2 := if f.solved then l1.filter (fun p => p.solved) else l1
  let l3 := if f.starred then l2.filter (fun p => p.starred) else l2
  if f.query ≠ "" then
    l3.filter (fun p =>
      jsIncludes (toLowerStr p.title) (toLowerStr f.query) ||
      jsIncludes p.id (toLowerStr f.query))
  else l3

/-- The single conjunctive predicate the filter stage implements. -/
def keepPred (f : Filters) (p : Problem) : Bool :=
  (decide (f.min ≤ p.rating) && decide (p.rating ≤ f.max)) &&
  (!f.solved || p.solved) &&
  (!f.starred || p.starred) &&
  (f.query == "" ||
    (jsIncludes (toLowerStr p.title) (toLowerStr f.query) ||
     jsIncludes p.id (toLowerStr f.query)))

/-- Modelled from the spec: the claim's filter predicate, in which the
query match against the identifier is also case-insensitive. -/
def claimKeepPred (f : Filters) (p : Problem) : Bool :=
  (decide (f.min ≤ p.rating) && decide (p.rating ≤ f.max)) &&
  (!f.solved || p.solved) &&
  (!f.starred || p.starred) &&
  (f.query == "" ||
    (jsIncludes (toLowerStr p.title) (toLowerStr f.query) ||
     jsIncludes (toLowerStr p.id) (toLowerStr f.query)))

/-- The sortable columns (`keyof Problem`). -/
inductive Field
  | id | title | slug | rating | contest | difficulty | solved | starred | notes | tc | sc
deriving DecidableEq, Repr

/-- A JS field value: string, number or boolean. -/
inductive FieldVal
  | str (s : String)
  | num (n : ℤ)
  | boolv (b : Bool)
deriving DecidableEq, Repr

/-- Field projection `p[key]`. -/
def getF (p : Problem) : Field → FieldVal
  | Field.id => FieldVal.str p.id
  | Field.title => FieldVal.str p.title
  | Field.slug => FieldVal.str p.slug
  | Field.rating => FieldVal.num p.rating
  | Field.contest => FieldVal.str p.contest
  | Field.difficulty => FieldVal.str p.difficulty
  | Field.solved => FieldVal.boolv p.solved
  | Field.starred => FieldVal.boolv p.starred
  | Field.notes => FieldVal.str p.notes
  | Field.tc => FieldVal.str p.tc
  | Field.sc => FieldVal.str p.sc

/-- JS string order: lexicographic on code units, a proper prefix sorts
first. -/
def ltChars : List Char → List Char → Bool
  | [], [] => false
  | [], _ :: _ => true
  | _ :: _, [] => false
  | a :: as, b :: bs => if a < b then true else if b < a then false else ltChars as bs

/-- JS `<` on two same-typed field values (`false < true` for booleans via
numeric coercion); cross-type comparison never occurs for a fixed sort key. -/
def jsLt : FieldVal → FieldVal → Bool
  | FieldVal.str a, FieldVal.str b => ltChars a.data b.data
  | FieldVal.num a, FieldVal.num b => decide (a < b)
  | FieldVal.boolv a, FieldVal.boolv b => !a && b
  | _, _ => false

/-- The comparator's ordinal map for difficulty labels:
`{Easy: 1, Medium: 2, Hard: 3}` with `?? 0` for any other label. -/
def diffOrd (s : String) : ℤ :=
  if s = "Easy" then 1 else if s = "Medium" then 2 else if s = "Hard" then 3 else 0

/-- The value the comparator actually compares for a key: the difficulty
column goes through `diffOrd`, every other column is the raw field. -/
def sortVal (k : Field) (p : Problem) : FieldVal :=
  if k = Field.difficulty then FieldVal.num (diffOrd p.difficulty) else getF p k

/-- Sort direction. -/
inductive Dir
  | asc | desc
deriving DecidableEq, Repr

/-- The comparator passed to `list.sort`: `-1` / `1` / `0`, with the
direction flipping the sign. -/
def cmp (k : Field) (d : Dir) (a b : Problem) : ℤ :=
  if jsLt (sortVal k a) (sortVal k b) then (match d with | Dir.asc => -1 | Dir.desc => 1)
  else if jsLt (sortVal k b) (sortVal k a) then (match d with | Dir.asc => 1 | Dir.desc => -1)
  else 0

/-- Not-greater-than according to the comparator; JS `Array.prototype.sort`
is a stable sort consistent with this relation. -/
def sortLe (k : Field) (d : Dir) (a b : Problem) : Bool := decide (cmp k d a b ≤ 0)

/-- The sort stage: a stable sort by the comparator (JS `sort` is stable). -/
def sortProblems (k : Field) (d : Dir) (l : List Problem) : List Problem :=
  l.mergeSort (sortLe k d)

/-- The whole filter+sort derivation of `visible` (sorting only when a key
is set). -/
def viewList (all : List Problem) (f : Filters) (sk : Option Field) (d : Dir) :
    List Problem :=
  match sk with
  | none => applyFilters f all
  | some k => sortProblems k d (applyFilters f all)

/-- A `Partial<Problem>` patch: present fields override. -/
structure Patch where
  id : Option String
  title : Option String
  slug : Option String
  rating : Option ℤ
  contest : Option String
  difficulty : Option String
  solved : Option Bool
  starred : Option Bool
  notes : Option String
  tc : Option String
  sc : Option String
deriving DecidableEq, Repr

/-- JS spread `{...p, ...patch}`. -/
def applyPatch (pa : Patch) (p : Problem) : Problem :=
  { id := pa.id.getD p.id
    title := pa.title.getD p.title
    slug := pa.slug.getD p.slug
    rating := pa.rating.getD p.rating
    contest := pa.contest.getD p.contest
    difficulty := pa.difficulty.getD p.difficulty
    solved := pa.solved.getD p.solved
    starred := pa.starred.getD p.starred
    notes := pa.notes.getD p.notes
    tc := pa.tc.getD p.tc
    sc := pa.sc.getD p.sc }

/-- Source `update(id, patch)`: patch every record whose id matches, keep
the rest. -/
def update (l : List Problem) (key : String) (pa : Patch) : List Problem :=
  l.map (fun p => if p.id == key then applyPatch pa p else p)

/-- The value a patch assigns to a column, if any. -/
def patchF (pa : Patch) : Field → Option FieldVal
  | Field.id => pa.id.map FieldVal.str
  | Field.title => pa.title.map FieldVal.str
  | Field.slug => pa.slug.map FieldVal.str
  | Field.rating => pa.rating.map FieldVal.num
  | Field.contest => pa.contest.map FieldVal.str
  | Field.difficulty => pa.difficulty.map FieldVal.str
  | Field.solved => pa.solved.map FieldVal.boolv
  | Field.starred => pa.starred.map FieldVal.boolv
  | Field.notes => pa.notes.map FieldVal.str
  | Field.tc => pa.tc.map FieldVal.str
  | Field.sc => pa.sc.map FieldVal.str

/-- The pagination-relevant UI state: the derived `visible` list, the
1-based `page`, and `pageSize`. -/
structure UiState where
  visible : List Problem
  page : ℕ
  pageSize : ℕ
deriving DecidableEq, Repr

/-- `Math.ceil(visible.length / pageSize)` for a positive page size. -/
def pages (s : UiState) : ℕ := (s.visible.length + s.pageSize - 1) / s.pageSize

/-- Initial state: `page = 1`, `pageSize = 25`, nothing loaded yet. -/
def initState : UiState := { visible := [], page := 1, pageSize := 25 }

/-- The state transitions touching pagination: the filter/sort effect
(recomputes `visible` and resets `page` to 1), the four pager buttons
(rendered only when `pages > 1`, each disabled at its bound), and the page
size select (25/50/100), which does not touch `page`. -/
inductive Step : UiState → UiState → Prop
  | refilter (s : UiState) (all : List Problem) (f : Filters) (sk : Option Field) (d : Dir) :
      Step s { s with visible := viewList all f sk d, page := 1 }
  | goFirst (s : UiState) (h1 : 1 < pages s) (h2 : s.page ≠ 1) :
      Step s { s with page := 1 }
  | goPrev (s : UiState) (h1 : 1 < pages s) (h2 : s.page ≠ 1) :
      Step s { s with page := s.page - 1 }
  | goNext (s : UiState) (h1 : 1 < pages s) (h2 : s.page ≠ pages s) :
      Step s { s with page := s.page + 1 }
  | goLast (s : UiState) (h1 : 1 < pages s) (h2 : s.page ≠ pages s) :
      Step s { s with page := pages s }
  | setSize (s : UiState) (n : ℕ) (h : n = 25 ∨ n = 50 ∨ n = 100) :
      Step s { s with pageSize := n }

/-- States reachable from the initial state. -/
inductive Reachable : UiState → Prop
  | init : Reachable initState
  | step {s t : UiState} : Reachable s → Step s t → Reachable t

/-- The page-bounds invariant: positive page size, `page ≥ 1`, and `page`
at most the page count whenever something is visible. -/
def pageInv (s : UiState) : Prop :=
  0 < s.pageSize ∧ 1 ≤ s.page ∧ (s.visible ≠ [] → s.page ≤ pages s)

/-! ### Helper lemmas -/

theorem find?_id_reverse (l : List Problem) (x : String)
    (h : (l.map Problem.id).Nodup) :
    l.reverse.find? (fun p => p.id == x) = l.find? (fun p => p.id == x) := by
  induction l with
  | nil => rfl
  | cons a l ih =>
    rw [List.map_cons, List.nodup_cons] at h
    obtain ⟨ha, hl⟩ := h
    rw [List.reverse_cons, List.find?_append]
    by_cases hax : a.id = x
    · have hnone : ∀ m : List Problem, (∀ p ∈ m, p ∈ l) →
          m.find? (fun p => p.id == x) = none := by
        intro m hm
        apply List.find?_eq_none.mpr
        intro p hp
        simp only [beq_iff_eq]
        intro hpx
        exact ha (hax ▸ hpx ▸ List.mem_map_of_mem Problem.id (hm p hp))
      have hpa : (a.id == x) = true := by simp [hax]
      rw [hnone l.reverse (fun p hp => List.mem_reverse.mp hp), Option.none_or,
        @List.find?_cons_of_pos _ (fun p => p.id == x) a [] hpa,
        @List.find?_cons_of_pos _ (fun p => p.id == x) a l hpa]
    · have hpa : ¬ (a.id == x) = true := by simp [hax]
      have hfa : (List.find? (fun p => p.id == x) [a]) = none := by
        rw [@List.find?_cons_of_neg _ (fun p => p.id == x) a [] hpa]
        rfl
      rw [hfa, Option.or_none, ih hl, @List.find?_cons_of_neg _ (fun p => p.id == x) a l hpa]

theorem savedMapGet_eq_of_mem (l : List Problem) (old : Problem)
    (h : (l.map Problem.id).Nodup) (hmem : old ∈ l) :
    savedMapGet l old.id = some old := by
  rw [savedMapGet, find?_id_reverse l old.id h]
  induction l with
  | nil => cases hmem
  | cons a l ih =>
    rw [List.map_cons, List.nodup_cons] at h
    obtain ⟨ha, hl⟩ := h
    rcases List.mem_cons.mp hmem with rfl | hmem'
    · exact List.find?_cons_of_pos l (by simp)
    · have hne : ¬ (a.id == old.id) = true := by
        simp only [beq_iff_eq]
        intro hax
        exact ha (hax ▸ List.mem_map_of_mem Problem.id hmem')
      rw [List.find?_cons_of_neg l hne]
      exact ih hl hmem'

theorem savedMapGet_eq_none (l : List Problem) (x : String)
    (h : ∀ q ∈ l, q.id ≠ x) : savedMapGet l x = none := by
  apply List.find?_eq_none.mpr
  intro p hp
  simpa using h p (List.mem_reverse.mp hp)

/-! ### C2 -/

/-- C2: difficulty inference is a pure total function: `"Q1" ↦ "Easy"`,
each of `"Q3"/"Q4"/"Q5" ↦ "Hard"`, and everything else — including a
missing index and `"Q2"` — maps to `"Medium"`. -/
theorem C2_inferDifficulty :
    inferDifficulty (some "Q1") = "Easy" ∧
    (∀ x ∈ (["Q3", "Q4", "Q5"] : List String), inferDifficulty (some x) = "Hard") ∧
    inferDifficulty none = "Medium" ∧
    inferDifficulty (some "Q2") = "Medium" ∧
    (∀ s : String, s ≠ "Q1" → s ∉ (["Q3", "Q4", "Q5"] : List String) →
      inferDifficulty (some s) = "Medium") := by
  refine ⟨by decide, by decide, by decide, by decide, ?_⟩
  intro s h1 h2
  simp [inferDifficulty, h1, h2]

/-- C2 witness: the generic `"Medium"` case applied at `"Q9"`. -/
theorem C2_inferDifficulty_witness :
    ("Q9" : String) ≠ "Q1" ∧ ("Q9" : String) ∉ (["Q3", "Q4", "Q5"] : List String) ∧
    inferDifficulty (some "Q9") = "Medium" :=
  ⟨by decide, by decide, C2_inferDifficulty.2.2.2.2 "Q9" (by decide) (by decide)⟩

/-! ### C5 -/

/-- C5: persisting a list and loading it back under the same version
constant takes the cache-hit path and yields the identical list. -/
theorem C5_persist_load (data : List Problem) :
    loadData (persist data) = LoadAction.useCache data := by
  simp [loadData, persist]

/-! ### C6 -/

/-- C6: a version mismatch, cache absence and a parse failure all make
`loadData` refetch, and cached data is only ever used verbatim (never
migrated field by field). -/
theorem C6_version_gate :
    loadData Cache.absent = LoadAction.refetch ∧
    loadData Cache.corrupt = LoadAction.refetch ∧
    (∀ (v : ℤ) (data : List Problem), v ≠ DATA_VERSION →
      loadData (Cache.stored v data) = LoadAction.refetch) ∧
    (∀ (v : ℤ) (data : List Problem),
      loadData (Cache.stored v data) = LoadAction.refetch ∨
      loadData (Cache.stored v data) = LoadAction.useCache data) := by
  refine ⟨rfl, rfl, ?_, ?_⟩
  · intro v data h
    simp [loadData, h]
  · intro v data
    by_cases h : v = DATA_VERSION <;> simp [loadData, h]

/-- C6 witness: a stored snapshot with version 2 is refetched like an
absent cache. -/
theorem C6_version_gate_witness :
    (2 : ℤ) ≠ DATA_VERSION ∧ loadData (Cache.stored 2 []) = LoadAction.refetch :=
  ⟨by decide, C6_version_gate.2.2.1 2 [] (by decide)⟩

/-! ### C1 -/

/-- C1: the merge produces one output record per raw record (in order);
identity/display/rating/contest/difficulty fields come from the fresh
record; the user-owned fields `solved/starred/notes/tc/sc` are copied from
the previous record with the same identifier when one exists and default
to `false/false/""/""/""` otherwise; and every output identifier stems
from the raw list, so records present only in the previous snapshot do not
appear. -/
theorem C1_fetchAndMerge (saved : List Problem) (raw : List RawItem)
    (hsaved : (saved.map Problem.id).Nodup) :
    (fetchAndMerge saved raw).length = raw.length ∧
    (∀ i : ℕ, (fetchAndMerge saved raw)[i]? = (raw[i]?).map (mergeOne saved)) ∧
    (∀ p ∈ fetchAndMerge saved raw, p.id ∈ raw.map (fun r => toString r.ID)) ∧
    (∀ r : RawItem,
      (mergeOne saved r).id = toString r.ID ∧
      (mergeOne saved r).title = r.Title ∧
      (mergeOne saved r).slug = r.TitleSlug ∧
      (mergeOne saved r).rating = jsRound (jsNumOrZero r.Rating) ∧
      (mergeOne saved r).contest = jsStrOrEmpty r.ContestID_en ∧
      (mergeOne saved r).difficulty = inferDifficulty r.ProblemIndex ∧
      (∀ old ∈ saved, old.id = toString r.ID →
        (mergeOne saved r).solved = old.solved ∧
        (mergeOne saved r).starred = old.starred ∧
        (mergeOne saved r).notes = old.notes ∧
        (mergeOne saved r).tc = old.tc ∧
        (mergeOne saved r).sc = old.sc) ∧
      ((∀ q ∈ saved, q.id ≠ toString r.ID) →
        (mergeOne saved r).solved = false ∧
        (mergeOne saved r).starred = false ∧
        (mergeOne saved r).notes = "" ∧
        (mergeOne saved r).tc = "" ∧
        (mergeOne saved r).sc = "")) := by
  refine ⟨List.length_map raw (mergeOne saved), ?_, ?_, ?_⟩
  · intro i
    exact List.getElem?_map (mergeOne saved) raw i
  · intro p hp
    obtain ⟨r, hr, rfl⟩ := List.mem_map.mp hp
    exact List.mem_map.mpr ⟨r, hr, rfl⟩
  · intro r
    refine ⟨rfl, rfl, rfl, rfl, rfl, rfl, ?_, ?_⟩
    · intro old hold hid
      have hget : savedMapGet saved (toString r.ID) = some old :=
        hid ▸ savedMapGet_eq_of_mem saved old hsaved hold
      simp [mergeOne, hget, jsStrOrEmpty]
    · intro hnone
      have hget : savedMapGet saved (toString r.ID) = none :=
        savedMapGet_eq_none saved (toString r.ID) hnone
      simp [mergeOne, hget, jsStrOrEmpty]

def cOld1 : Problem :=
  { id := "1", title := "old title", slug := "old-slug", rating := 5, contest := "",
    difficulty := "Easy", solved := true, starred := false, notes := "x", tc := "", sc := "" }

def cRaw1 : RawItem :=
  { ID := 1, Title := "Two Sum", TitleSlug := "two-sum", Rating := none,
    ContestID_en := none, ProblemIndex := some "Q1" }

/-- C1 witness: merging raw record `ID = 1` against a saved record with
id `"1"`, `solved = true`, `notes = "x"` copies the user fields and takes
the title from the fresh record. -/
theorem C1_fetchAndMerge_witness :
    ([cOld1].map Problem.id).Nodup ∧
    (mergeOne [cOld1] cRaw1).solved = true ∧
    (mergeOne [cOld1] cRaw1).notes = "x" ∧
    (mergeOne [cOld1] cRaw1).title = "Two Sum" := by
  have h := C1_fetchAndMerge [cOld1] [cRaw1] (by decide)
  have hr := h.2.2.2 cRaw1
  have hm := hr.2.2.2.2.2.2.1 cOld1 (List.mem_singleton.mpr rfl) (by decide)
  exact ⟨by decide, hm.1, hm.2.2.1, hr.2.1⟩

/-! ### C9 -/

def cRawNeg : RawItem :=
  { ID := 7, Title := "N", TitleSlug := "n", Rating := some (-1),
    ContestID_en := none, ProblemIndex := none }

/-- C9 counterexample: a raw record with remote `Rating = -1` merges to
`rating = -1 < 0`, so "for every raw remote record the merged rating is a
non-negative integer" is false as stated. -/
theorem C9_counterexample :
    cRawNeg.Rating = some (-1) ∧ (mergeOne [] cRawNeg).rating = -1 := by
  refine ⟨rfl, ?_⟩
  show jsRound (jsNumOrZero (some (-1))) = -1
  rw [jsNumOrZero, Option.getD_some, jsRound]
  norm_num

/-- C9 amended: a missing remote rating defaults to 0 and a present one is
rounded with `⌊x + 1/2⌋` (within 1/2 of the true value, hence "nearest");
the result is non-negative whenever the remote rating is missing or
non-negative (a negative remote rating yields a negative result); a
missing problem index defaults the difficulty to `"Medium"`; and malformed
records are never rejected — the merge stays one output per raw record. -/
theorem C9_rating (saved : List Problem) (r : RawItem) :
    (r.Rating = none → (mergeOne saved r).rating = 0) ∧
    (∀ q : ℚ, r.Rating = some q → (mergeOne saved r).rating = jsRound q) ∧
    (∀ q : ℚ, r.Rating = some q → 0 ≤ q → 0 ≤ (mergeOne saved r).rating) ∧
    (∀ q : ℚ, |(jsRound q : ℚ) - q| ≤ 1/2) ∧
    (r.ProblemIndex = none → (mergeOne saved r).difficulty = "Medium") ∧
    (∀ raw : List RawItem, (fetchAndMerge saved raw).length = raw.length) := by
  refine ⟨?_, ?_, ?_, ?_, ?_, ?_⟩
  · intro h
    show jsRound (jsNumOrZero r.Rating) = 0
    rw [h, jsNumOrZero, Option.getD_none, jsRound]
    norm_num
  · intro q h
    show jsRound (jsNumOrZero r.Rating) = jsRound q
    rw [h, jsNumOrZero, Option.getD_some]
  · intro q h hq
    show 0 ≤ jsRound (jsNumOrZero r.Rating)
    rw [h, jsNumOrZero, Option.getD_some, jsRound]
    have : (0 : ℚ) ≤ q + 1/2 := by linarith
    calc (0 : ℤ) = ⌊(0 : ℚ)⌋ := Int.floor_zero.symm
    _ ≤ ⌊q + 1/2⌋ := Int.floor_mono this
  · intro q
    rw [jsRound, abs_le]
    constructor
    · have := Int.lt_floor_add_one (q + 1/2)
      push_cast at this ⊢
      linarith
    · have := Int.floor_le (q + 1/2)
      push_cast at this ⊢
      linarith
  · intro h
    show inferDifficulty r.ProblemIndex = "Medium"
    rw [h]
    decide
  · intro raw
    exact List.length_map raw (mergeOne saved)

def cRaw9 : RawItem :=
  { ID := 9, Title := "M", TitleSlug := "m", Rating := none,
    ContestID_en := none, ProblemIndex := none }

/-- C9 witness: a record with no remote rating merges to rating 0. -/
theorem C9_rating_witness :
    cRaw9.Rating = none ∧ (mergeOne [] cRaw9).rating = 0 :=
  ⟨rfl, (C9_rating [] cRaw9).1 rfl⟩

/-! ### C10 -/

/-- C10: `update` keeps the list length, leaves every record whose id
differs from the key unchanged at its position, and on a matching record
changes exactly the columns the patch names, leaving all the others as
they were. -/
theorem C10_update (l : List Problem) (key : String) (pa : Patch) :
    (update l key pa).length = l.length ∧
    (∀ (i : ℕ) (p : Problem), l[i]? = some p →
      (p.id ≠ key → (update l key pa)[i]? = some p) ∧
      (p.id = key →
        (update l key pa)[i]? = some (applyPatch pa p) ∧
        (∀ fl : Field, patchF pa fl = none → getF (applyPatch pa p) fl = getF p fl) ∧
        (∀ (fl : Field) (v : FieldVal), patchF pa fl = some v →
          getF (applyPatch pa p) fl = v))) := by
  constructor
  · exact List.length_map l _
  · intro i p hp
    constructor
    · intro hne
      rw [update, List.getElem?_map, hp, Option.map_some']
      simp [hne]
    · intro heq
      refine ⟨?_, ?_, ?_⟩
      · rw [update, List.getElem?_map, hp, Option.map_some']
        simp [heq]
      · intro fl hfl
        cases fl <;>
          simp only [patchF, Option.map_eq_none'] at hfl <;>
          simp [getF, applyPatch, hfl]
      · intro fl v hfl
        cases fl <;>
          simp only [patchF, Option.map_eq_some'] at hfl <;>
          obtain ⟨w, hw, rfl⟩ := hfl <;>
          simp [getF, applyPatch, hw]

def cP10 : Problem :=
  { id := "1", title := "t", slug := "s", rating := 3, contest := "",
    difficulty := "Medium", solved := false, starred := false, notes := "keep",
    tc := "", sc := "" }

def cPatch10 : Patch :=
  { id := none, title := none, slug := none, rating := none, contest := none,
    difficulty := none, solved := some true, starred := none, notes := none,
    tc := none, sc := none }

/-- C10 witness: patching `{solved: true}` into the record with id `"1"`
sets `solved` and leaves `notes` untouched. -/
theorem C10_update_witness :
    ([cP10] : List Problem)[0]? = some cP10 ∧
    (update [cP10] "1" cPatch10)[0]? = some (applyPatch cPatch10 cP10) ∧
    getF (applyPatch cPatch10 cP10) Field.notes = getF cP10 Field.notes ∧
    getF (applyPatch cPatch10 cP10) Field.solved = FieldVal.boolv true := by
  have h := ((C10_update [cP10] "1" cPatch10).2 0 cP10 rfl).2 rfl
  exact ⟨rfl, h.1, h.2.1 Field.notes rfl, h.2.2 Field.solved (FieldVal.boolv true) rfl⟩

/-! ### C8 -/

def cRaw8 : RawItem :=
  { ID := 404, Title := "D", TitleSlug := "d", Rating := none,
    ContestID_en := none, ProblemIndex := none }

/-- C8 counterexample: a raw remote list that repeats `ID = 404` merges to
two records with the identifier `"404"`, so identifier uniqueness after a
fetch-and-merge over an arbitrary raw list is false as stated. -/
theorem C8_counterexample :
    ¬ ((fetchAndMerge [] [cRaw8, cRaw8]).map Problem.id).Nodup := by decide

/-- C8 amended: identifier uniqueness holds after every fetch-and-merge
over a raw list whose stringified IDs are pairwise distinct, and every
update whose patch leaves `id` unset preserves identifier uniqueness. -/
theorem C8_unique (saved : List Problem) (raw : List RawItem)
    (hraw : (raw.map (fun r => toString r.ID)).Nodup)
    (l : List Problem) (key : String) (pa : Patch)
    (hl : (l.map Problem.id).Nodup) (hid : pa.id = none) :
    ((fetchAndMerge saved raw).map Problem.id).Nodup ∧
    ((update l key pa).map Problem.id).Nodup := by
  constructor
  · have hids : (fetchAndMerge saved raw).map Problem.id =
        raw.map (fun r => toString r.ID) := by
      rw [fetchAndMerge, List.map_map]
      rfl
    rwa [hids]
  · have hids : (update l key pa).map Problem.id = l.map Problem.id := by
      rw [update, List.map_map]
      apply List.map_congr_left
      intro p _
      by_cases h : (p.id == key) = true <;> simp only [Function.comp_apply, h]
      · simp [h, applyPatch, hid]
      · simp [h]
    rwa [hids]

def cPatch8 : Patch :=
  { id := none, title := none, slug := none, rating := none, contest := none,
    difficulty := none, solved := none, starred := none, notes := some "n",
    tc := none, sc := none }

/-- C8 witness: uniqueness after merging a singleton raw list and after a
notes-only update of a singleton list. -/
theorem C8_unique_witness :
    ([cRaw8].map (fun r => toString r.ID)).Nodup ∧
    cPatch8.id = none ∧
    ((fetchAndMerge [] [cRaw8]).map Problem.id).Nodup ∧
    ((update [cP10] "1" cPatch8).map Problem.id).Nodup := by
  have h := C8_unique [] [cRaw8] (by decide) [cP10] "1" cPatch8 (by decide) rfl
  exact ⟨by decide, rfl, h.1, h.2⟩

/-! ### C3 -/

def cP3 : Problem :=
  { id := "A", title := "zzz", slug := "z", rating := 100, contest := "",
    difficulty := "Medium", solved := false, starred := false, notes := "", tc := "", sc := "" }

def cF3 : Filters :=
  { min := 0, max := 3500, query := "A", solved := false, starred := false }

/-- C3 counterexample: with query `"A"` a record with identifier `"A"`
passes every predicate of the claim (case-insensitive match against the
identifier) yet the code's filter drops it, because the identifier is
matched against the lowercased query without being lowercased itself. -/
theorem C3_counterexample :
    claimKeepPred cF3 cP3 = true ∧ applyFilters cF3 [cP3] = [] := by decide

/-- C3 amended: the filter stage keeps exactly the records satisfying the
conjunction of the active predicates — rating within `[min, max]`
inclusive, `solved`/`starred` when those toggles are on, and for a
non-empty query a case-insensitive substring match against the title OR a
substring match of the lowercased query against the identifier as stored
(the identifier is not case-folded); a record failing any one active
predicate is excluded. -/
theorem C3_filter (f : Filters) (l : List Problem) :
    applyFilters f l = l.filter (keepPred f) := by
  unfold applyFilters keepPred
  cases hs : f.solved <;> cases hst : f.starred <;> by_cases hq : f.query = "" <;>
    simp [hs, hst, hq, List.filter_filter] <;>
    · apply List.filter_congr
      intro p _
      first
      | (have hqf : (f.query == "") = false := by simp [hq]
         simp [hqf, Bool.and_comm, Bool.and_assoc, Bool.and_left_comm])
      | simp [hq, Bool.and_comm, Bool.and_assoc, Bool.and_left_comm]

/-! ### C4 -/

theorem ltChars_irrefl (l : List Char) : ltChars l l = false := by
  induction l with
  | nil => rfl
  | cons a as ih => simp [ltChars, ih, lt_irrefl]

theorem ltChars_trans {a b c : List Char} (h1 : ltChars a b = true)
    (h2 : ltChars b c = true) : ltChars a c = true := by
  induction a generalizing b c with
  | nil =>
    cases b with
    | nil => exact absurd h1 (by simp [ltChars])
    | cons y ys =>
      cases c with
      | nil => exact absurd h2 (by simp [ltChars])
      | cons z zs => rfl
  | cons x xs ih =>
    cases b with
    | nil => exact absurd h1 (by simp [ltChars])
    | cons y ys =>
      cases c with
      | nil => exact absurd h2 (by simp [ltChars])
      | cons z zs =>
        rw [ltChars] at h1 h2 ⊢
        by_cases hxy : x < y
        · simp only [hxy, if_true] at h1
          by_cases hyz : y < z
          · simp [lt_trans hxy hyz]
          · by_cases hzy : z < y
            · simp [hyz, hzy] at h2
            · have : y = z := le_antisymm (not_lt.mp hzy) (not_lt.mp hyz)
              simp [this ▸ hxy]
        · by_cases hyx : y < x
          · simp [hxy, hyx] at h1
          · have hxy' : x = y := le_antisymm (not_lt.mp hyx) (not_lt.mp hxy)
            simp only [hxy, hyx, if_false] at h1
            subst hxy'
            by_cases hyz : x < z
            · simp [hyz]
            · by_cases hzy : z < x
              · simp [hyz, hzy] at h2
              · simp only [hyz, hzy, if_false] at h2 ⊢
                exact ih h1 h2

theorem ltChars_conn {a b : List Char} (h1 : ltChars a b = false)
    (h2 : ltChars b a = false) : a = b := by
  induction a generalizing b with
  | nil =>
    cases b with
    | nil => rfl
    | cons y ys => simp [ltChars] at h1
  | cons x xs ih =>
    cases b with
    | nil => simp [ltChars] at h2
    | cons y ys =>
      rw [ltChars] at h1 h2
      by_cases hxy : x < y
      · simp [hxy] at h1
      · by_cases hyx : y < x
        · simp [hyx] at h2
        · have hx : x = y := le_antisymm (not_lt.mp hyx) (not_lt.mp hxy)
          simp only [hxy, hyx, if_false] at h1 h2
          rw [hx, ih h1 h2]

theorem jsLt_irrefl (v : FieldVal) : jsLt v v = false := by
  cases v with
  | str s => simp [jsLt, ltChars_irrefl]
  | num n => simp [jsLt]
  | boolv b => cases b <;> rfl

theorem jsLt_trans {u v w : FieldVal} (h1 : jsLt u v = true) (h2 : jsLt v w = true) :
    jsLt u w = true := by
  cases u <;> cases v <;> simp [jsLt] at h1 <;> cases w <;> simp [jsLt] at h2 ⊢
  · exact ltChars_trans h1 h2
  · exact lt_trans h1 h2
  · exact absurd h2.1 (by simp [h1.2])

theorem jsLt_asymm {u v : FieldVal} (h : jsLt u v = true) : jsLt v u = false := by
  by_contra hc
  have hc' : jsLt v u = true := by
    cases hvu : jsLt v u
    · exact absurd hvu hc
    · rfl
  have := jsLt_trans h hc'
  rw [jsLt_irrefl] at this
  exact Bool.false_ne_true this

/-- The runtime type of a field value (0 = string, 1 = number, 2 = boolean). -/
def kind : FieldVal → ℕ
  | FieldVal.str _ => 0
  | FieldVal.num _ => 1
  | FieldVal.boolv _ => 2

theorem jsLt_conn {u v : FieldVal} (hk : kind u = kind v)
    (h1 : jsLt u v = false) (h2 : jsLt v u = false) : u = v := by
  cases u <;> cases v <;> simp [kind] at hk <;> simp [jsLt] at h1 h2 ⊢
  · exact String.ext (ltChars_conn h1 h2)
  · omega
  · rename_i a b
    cases a <;> cases b <;> simp_all

theorem kind_sortVal (k : Field) (p q : Problem) :
    kind (sortVal k p) = kind (sortVal k q) := by
  cases k <;> rfl

theorem cmp_lt_zero_asc (k : Field) (a b : Problem) :
    cmp k Dir.asc a b < 0 ↔ jsLt (sortVal k a) (sortVal k b) = true := by
  rw [cmp]
  by_cases h1 : jsLt (sortVal k a) (sortVal k b) = true
  · simp [h1]
  · by_cases h2 : jsLt (sortVal k b) (sortVal k a) = true <;> simp [h1, h2]

theorem bfalse_of_not_true {x : Bool} (h : ¬ x = true) : x = false := by
  cases x
  · rfl
  · exact absurd rfl h

theorem cmp_le_zero_asc (k : Field) (a b : Problem) :
    (cmp k Dir.asc a b ≤ 0) ↔ jsLt (sortVal k b) (sortVal k a) = false := by
  rw [cmp]
  by_cases h1 : jsLt (sortVal k a) (sortVal k b) = true
  · have h2 := jsLt_asymm h1
    simp [h1, h2]
  · by_cases h2 : jsLt (sortVal k b) (sortVal k a) = true <;> simp [h1, h2]

theorem cmp_le_zero_desc (k : Field) (a b : Problem) :
    (cmp k Dir.desc a b ≤ 0) ↔ jsLt (sortVal k a) (sortVal k b) = false := by
  rw [cmp]
  by_cases h1 : jsLt (sortVal k a) (sortVal k b) = true
  · have h2 := jsLt_asymm h1
    simp [h1, h2]
  · by_cases h2 : jsLt (sortVal k b) (sortVal k a) = true <;> simp [h1, h2]

theorem jsLt_nlt_trans {k : Field} {x y z : Problem}
    (h1 : jsLt (sortVal k y) (sortVal k x) = false)
    (h2 : jsLt (sortVal k z) (sortVal k y) = false) :
    jsLt (sortVal k z) (sortVal k x) = false := by
  cases hza : jsLt (sortVal k z) (sortVal k x)
  · rfl
  · exfalso
    by_cases hyz : jsLt (sortVal k y) (sortVal k z) = true
    · have h := jsLt_trans hyz hza
      rw [h1] at h
      exact Bool.false_ne_true h
    · have hzy : sortVal k z = sortVal k y :=
        jsLt_conn (kind_sortVal k z y) h2 (bfalse_of_not_true hyz)
      rw [hzy, h1] at hza
      exact Bool.false_ne_true hza

theorem sortLe_trans (k : Field) (d : Dir) :
    ∀ a b c : Problem, sortLe k d a b = true → sortLe k d b c = true →
      sortLe k d a c = true := by
  intro a b c h1 h2
  cases d
  · rw [sortLe, decide_eq_true_eq, cmp_le_zero_asc] at h1 h2 ⊢
    exact jsLt_nlt_trans h1 h2
  · rw [sortLe, decide_eq_true_eq, cmp_le_zero_desc] at h1 h2 ⊢
    exact jsLt_nlt_trans h2 h1

theorem sortLe_total (k : Field) (d : Dir) :
    ∀ a b : Problem, (sortLe k d a b || sortLe k d b a) = true := by
  intro a b
  cases d
  · rw [sortLe, sortLe, Bool.or_eq_true, decide_eq_true_eq, decide_eq_true_eq,
      cmp_le_zero_asc, cmp_le_zero_asc]
    by_cases h : jsLt (sortVal k b) (sortVal k a) = true
    · exact Or.inr (jsLt_asymm h)
    · exact Or.inl (bfalse_of_not_true h)
  · rw [sortLe, sortLe, Bool.or_eq_true, decide_eq_true_eq, decide_eq_true_eq,
      cmp_le_zero_desc, cmp_le_zero_desc]
    by_cases h : jsLt (sortVal k a) (sortVal k b) = true
    · exact Or.inr (jsLt_asymm h)
    · exact Or.inl (bfalse_of_not_true h)

/-- C4: the sort comparator maps the difficulty column through the ordinal
map `{Easy: 1, Medium: 2, Hard: 3}`, so ascending order is
Easy < Medium < Hard even though `"Hard" < "Medium"` lexically; every other
column is compared by the natural order of its own value (numeric for
rating, lexicographic for strings, `false < true` for booleans); the
descending direction is the exact negation of the ascending comparator;
the comparator returns 0 on equal keys; and the stable sort keeps tied
records in their relative order from the filtered input. -/
theorem C4_sort_comparator (k : Field) (d : Dir) (a b : Problem) (l : List Problem) :
    (sortVal Field.difficulty a = FieldVal.num (diffOrd a.difficulty) ∧
     diffOrd "Easy" = 1 ∧ diffOrd "Medium" = 2 ∧ diffOrd "Hard" = 3) ∧
    (cmp Field.difficulty Dir.asc a b < 0 ↔ diffOrd a.difficulty < diffOrd b.difficulty) ∧
    (a.difficulty = "Medium" → b.difficulty = "Hard" →
      cmp Field.difficulty Dir.asc a b = -1 ∧
      ltChars b.difficulty.data a.difficulty.data = true) ∧
    (k ≠ Field.difficulty → (cmp k Dir.asc a b < 0 ↔ jsLt (getF a k) (getF b k) = true)) ∧
    (cmp Field.rating Dir.asc a b < 0 ↔ a.rating < b.rating) ∧
    (cmp k Dir.desc a b = - cmp k Dir.asc a b) ∧
    (sortVal k a = sortVal k b → cmp k d a b = 0) ∧
    (cmp k d a b = 0 → [a, b].Sublist l → [a, b].Sublist (sortProblems k d l)) := by
  refine ⟨⟨by simp [sortVal], by decide, by decide, by decide⟩, ?_, ?_, ?_, ?_, ?_, ?_, ?_⟩
  · rw [cmp_lt_zero_asc]
    simp [sortVal, jsLt]
  · intro ha hb
    have hda : diffOrd a.difficulty = 2 := by rw [ha]; decide
    have hdb : diffOrd b.difficulty = 3 := by rw [hb]; decide
    constructor
    · have hlt : jsLt (sortVal Field.difficulty a) (sortVal Field.difficulty b) = true := by
        simp [sortVal, jsLt, hda, hdb]
      rw [cmp, if_pos hlt]
    · rw [ha, hb]
      decide
  · intro hk
    rw [cmp_lt_zero_asc]
    have hva : sortVal k a = getF a k := by rw [sortVal, if_neg hk]
    have hvb : sortVal k b = getF b k := by rw [sortVal, if_neg hk]
    rw [hva, hvb]
  · rw [cmp_lt_zero_asc]
    show jsLt (FieldVal.num a.rating) (FieldVal.num b.rating) = true ↔ a.rating < b.rating
    simp [jsLt]
  · by_cases h1 : jsLt (sortVal k a) (sortVal k b) = true <;>
      by_cases h2 : jsLt (sortVal k b) (sortVal k a) = true <;>
      simp [cmp, h1, h2]
  · intro h
    simp [cmp, h, jsLt_irrefl]
  · intro h hsub
    show [a, b].Sublist (l.mergeSort (sortLe k d))
    refine List.pair_sublist_mergeSort (sortLe_trans k d) (sortLe_total k d) ?_ hsub
    simp [sortLe, h]

def cP4 : Problem :=
  { id := "4", title := "w", slug := "w", rating := 1500, contest := "",
    difficulty := "Hard", solved := false, starred := false, notes := "", tc := "", sc := "" }

/-- C4 witness: the tie case of the comparator at a concrete record. -/
theorem C4_sort_comparator_witness :
    sortVal Field.rating cP4 = sortVal Field.rating cP4 ∧
    cmp Field.rating Dir.asc cP4 cP4 = 0 :=
  ⟨rfl, (C4_sort_comparator Field.rating Dir.asc cP4 cP4 []).2.2.2.2.2.2.1 rfl⟩

/-! ### C7 -/

def cP7 : Problem :=
  { id := "0", title := "t", slug := "s", rating := 0, contest := "",
    difficulty := "Medium", solved := false, starred := false, notes := "", tc := "", sc := "" }

def cAll7 : List Problem := List.replicate 26 cP7

def cF7 : Filters :=
  { min := 0, max := 3500, query := "", solved := false, starred := false }

def cS7a : UiState := { visible := cAll7, page := 1, pageSize := 25 }

def cS7b : UiState := { visible := cAll7, page := 2, pageSize := 25 }

def cS7 : UiState := { visible := cAll7, page := 2, pageSize := 50 }

/-- C7 counterexample: load 26 records (2 pages at size 25), go to page 2,
then switch the page size to 50; the page-size change does not reset or
clamp the page, so the reachable state has `page = 2` above the page count
1 while the filtered list is non-empty. -/
theorem C7_counterexample :
    Reachable cS7 ∧ cS7.visible ≠ [] ∧ pages cS7 < cS7.page := by
  refine ⟨?_, by decide, by decide⟩
  have e1 : ({ initState with visible := viewList cAll7 cF7 none Dir.asc, page := 1 } :
      UiState) = cS7a := by decide
  have h1 : Reachable cS7a :=
    e1 ▸ Reachable.step Reachable.init (Step.refilter initState cAll7 cF7 none Dir.asc)
  have e2 : ({ cS7a with page := cS7a.page + 1 } : UiState) = cS7b := by decide
  have h2 : Reachable cS7b :=
    e2 ▸ Reachable.step h1 (Step.goNext cS7a (by decide) (by decide))
  have e3 : ({ cS7b with pageSize := 50 } : UiState) = cS7 := by decide
  exact e3 ▸ Reachable.step h2 (Step.setSize cS7b 50 (Or.inr (Or.inl rfl)))

/-- C7 amended: `1 ≤ page` and a positive page size hold in every
reachable state, and the full bound `1 ≤ page ≤ ⌈filtered / pageSize⌉`
(for a non-empty filtered list) holds initially and is preserved by every
transition that leaves the page size unchanged; a page-size change carries
the old page over unclamped, which is exactly how the counterexample
escapes the upper bound. -/
theorem C7_page_bounds :
    (∀ s : UiState, Reachable s → 1 ≤ s.page ∧ 0 < s.pageSize) ∧
    pageInv initState ∧
    (∀ s t : UiState, pageInv s → Step s t → t.pageSize = s.pageSize → pageInv t) := by
  refine ⟨?_, ?_, ?_⟩
  · intro s hs
    induction hs with
    | init => exact ⟨le_refl 1, by norm_num [initState]⟩
    | step hr hstep ih =>
      cases hstep with
      | refilter all f sk d => exact ⟨le_refl 1, ih.2⟩
      | goFirst h1 h2 => exact ⟨le_refl 1, ih.2⟩
      | goPrev h1 h2 =>
        exact ⟨Nat.le_sub_one_of_lt (lt_of_le_of_ne ih.1 (Ne.symm h2)), ih.2⟩
      | goNext h1 h2 =>
        exact ⟨Nat.le_add_left 1 _, ih.2⟩
      | goLast h1 h2 =>
        exact ⟨le_of_lt h1, ih.2⟩
      | setSize n h => exact ⟨ih.1, by rcases h with h | h | h <;> simp [h]⟩
  · exact ⟨by norm_num [initState], le_refl 1, fun h => absurd rfl h⟩
  · intro s t hinv hstep hps
    obtain ⟨hsize, hpage, hbound⟩ := hinv
    cases hstep with
    | refilter all f sk d =>
      refine ⟨hsize, le_refl 1, ?_⟩
      intro hne
      have hne' : viewList all f sk d ≠ [] := hne
      have hlen : 1 ≤ (viewList all f sk d).length := List.length_pos.mpr hne'
      show 1 ≤ ((viewList all f sk d).length + s.pageSize - 1) / s.pageSize
      rw [Nat.le_div_iff_mul_le hsize]
      omega
    | goFirst h1 h2 =>
      exact ⟨hsize, le_refl 1, fun _ => by show 1 ≤ pages s; omega⟩
    | goPrev h1 h2 =>
      refine ⟨hsize, by show 1 ≤ s.page - 1; omega, ?_⟩
      intro hne
      have hb := hbound hne
      show s.page - 1 ≤ pages s
      omega
    | goNext h1 h2 =>
      refine ⟨hsize, by show 1 ≤ s.page + 1; omega, ?_⟩
      intro hne
      have hb := hbound hne
      show s.page + 1 ≤ pages s
      omega
    | goLast h1 h2 =>
      exact ⟨hsize, by show 1 ≤ pages s; omega, fun _ => le_refl (pages s)⟩
    | setSize n h =>
      have hn : n = s.pageSize := hps
      subst hn
      exact ⟨hsize, hpage, hbound⟩

/-- C7 witness: the amended reachable-state bound applied at the initial
state. -/
theorem C7_page_bounds_witness :
    1 ≤ initState.page ∧ 0 < initState.pageSize :=
  C7_page_bounds.1 initState Reachable.init

end Tracker
